import Mathlib

/-!
Verification of the Commerzbank statement-to-CSV converter.

The development shallowly embeds the Python sources
`src/transaction_parser.py`, `src/models.py` and `src/csv_writer.py`.
Text is modelled as `List Char`; Python `str` methods and the three
`re` patterns used by the parser are translated into executable Lean
functions.  Python's `Decimal` is modelled as `ℚ` (exact arithmetic on
the digit/dot fragment reachable from the amount grammar).  Exceptions
are modelled with `Except`: an `Except.error` result corresponds to a
raised exception, so no transaction list is produced on error.

Modelling notes, faithful on all inputs used by the claims:
* `\d` and `\s` of Python `re` are modelled as ASCII digits and ASCII
  whitespace; `str.strip()` strips the same ASCII whitespace set.
* `.` in the transaction pattern matches any character except `'\n'`;
  the pattern is only ever applied to lines produced by
  `text.split('\n')`, which contain no `'\n'`, so it is modelled as
  matching any character.
* `CSVWriter._format_betrag` converts the `Decimal` to `float` before
  formatting with two fractional digits; the conversion is modelled as
  exact, which agrees with the code for every amount whose magnitude in
  cents fits well below 2^52.
-/

deriving instance DecidableEq for Except

namespace CommerzbankPdfToCsv

/-- ASCII whitespace stripped by Python `str.strip()` and matched by
`\s` (space, tab, newline, carriage return, vertical tab, form feed). -/
def pyWs (c : Char) : Bool :=
  c = ' ' || c = '\t' || c = '\n' || c = '\r' || c = Char.ofNat 11 || c = Char.ofNat 12

/-- ASCII decimal digit, the model of `\d`. -/
def pyDigit (c : Char) : Bool :=
  '0' ≤ c && c ≤ '9'

/-- Characters allowed by the amount character class `[\d.,]`. -/
def amountChar (c : Char) : Bool :=
  pyDigit c || c = '.' || c = ','

/-- Python `str.strip()`: drop leading and trailing whitespace. -/
def strip (s : List Char) : List Char :=
  ((s.dropWhile pyWs).reverse.dropWhile pyWs).reverse

/-- Python `text.split('\n')`. -/
def splitNl : List Char → List (List Char)
  | [] => [[]]
  | c :: rest =>
    if c = '\n' then [] :: splitNl rest
    else
      match splitNl rest with
      | [] => [[c]]
      | l :: ls => (c :: l) :: ls

/-- Substring containment, the model of an unanchored literal `re.search`. -/
def containsChars (pat : List Char) : List Char → Bool
  | [] => pat.isPrefixOf []
  | c :: rest => pat.isPrefixOf (c :: rest) || containsChars pat rest

/-- `' '.join` over the collected description parts. -/
def joinSpace : List (List Char) → List Char
  | [] => []
  | [p] => p
  | p :: q :: rest => p ++ ' ' :: joinSpace (q :: rest)

/-- Numeric value of a big-endian list of digit characters
(`int(s)` on a nonempty all-digit string, `0` on `[]`). -/
def natOfDigits (ds : List Char) : Nat :=
  ds.foldl (fun a c => 10 * a + (c.toNat - 48)) 0

/-- Errors raised by the embedded program, one constructor per
distinct raise site / exception family of the source. -/
inductive PErr where
  /-- `ValueError("Could not find statement date in PDF")` in `_extract_year`. -/
  | missingStatementDate
  /-- `ValueError` raised by `datetime.strptime` on an invalid date. -/
  | invalidDate
  /-- `ValueError("Year not extracted from statement header")` in `_parse_valuta`. -/
  | yearNotResolved
  /-- `decimal.InvalidOperation` raised by `Decimal(...)` in `_parse_betrag`. -/
  | malformedAmount
  /-- `ValueError("Cannot write CSV: transactions list is empty")` in `CSVWriter.write`. -/
  | emptyTransactions
  /-- `ValueError("Output file must have .csv extension: ...")` in `_validate_output_path`. -/
  | invalidDestination
deriving DecidableEq

/-- The result of `datetime.date`: a validated calendar date. -/
structure PyDate where
  year : Nat
  month : Nat
  day : Nat
deriving DecidableEq

/-- Gregorian month lengths, as validated by `datetime`. -/
def daysInMonth (year month : Nat) : Nat :=
  if month = 2 then
    if year % 4 = 0 && (year % 100 ≠ 0 || year % 400 = 0) then 29 else 28
  else if month = 4 || month = 6 || month = 9 || month = 11 then 30
  else 31

/-- `datetime.strptime(s, '%d.%m.%Y')` followed by `.date()`:
parse `day.month.year` and validate it as a calendar date. -/
def strptimeDMY (s : List Char) : Except PErr PyDate :=
  match s.splitOn '.' with
  | [ds, ms, ys] =>
    if ds.all pyDigit && ms.all pyDigit && ys.all pyDigit &&
       1 ≤ ds.length && ds.length ≤ 2 && 1 ≤ ms.length && ms.length ≤ 2 &&
       1 ≤ ys.length && ys.length ≤ 4 then
      let d := natOfDigits ds
      let m := natOfDigits ms
      let y := natOfDigits ys
      if 1 ≤ y && y ≤ 9999 && 1 ≤ m && m ≤ 12 && 1 ≤ d && d ≤ daysInMonth y m then
        .ok ⟨y, m, d⟩
      else .error .invalidDate
    else .error .invalidDate
  | _ => .error .invalidDate

/-- Try to match `\d{2}\.\d{2}\.\d{4}` at the head of `s`; on success
return the ten matched characters (trailing characters are ignored,
as the patterns using this piece are unanchored on the right). -/
def matchDate10 (s : List Char) : Option (List Char) :=
  match s with
  | d1 :: d2 :: '.' :: m1 :: m2 :: '.' :: y1 :: y2 :: y3 :: y4 :: _ =>
    if pyDigit d1 && pyDigit d2 && pyDigit m1 && pyDigit m2 &&
       pyDigit y1 && pyDigit y2 && pyDigit y3 && pyDigit y4 then
      some [d1, d2, '.', m1, m2, '.', y1, y2, y3, y4]
    else none
  | _ => none

/-- Try to match a literal followed by `(\d{2}\.\d{2}\.\d{4})` at the
head of `s`, returning the date group. -/
def matchLitDateAt (lit : List Char) (s : List Char) : Option (List Char) :=
  if lit.isPrefixOf s then matchDate10 (s.drop lit.length) else none

/-- `re.search(r'Buchungsdatum: (\d{2}\.\d{2}\.\d{4})', s)`, returning
group 1 of the leftmost match. -/
def searchBooking (s : List Char) : Option (List Char) :=
  match matchLitDateAt ("Buchungsdatum: ".toList) s with
  | some g => some g
  | none =>
    match s with
    | [] => none
    | _ :: rest => searchBooking rest

/-- `re.search(r'Kontoauszug vom (\d{2}\.\d{2}\.\d{4})', text)`, returning
group 1 of the leftmost match. -/
def searchStatement (s : List Char) : Option (List Char) :=
  match matchLitDateAt ("Kontoauszug vom ".toList) s with
  | some g => some g
  | none =>
    match s with
    | [] => none
    | _ :: rest => searchStatement rest

/-- Length of the maximal whitespace run at the head of `s`. -/
def wsRun (s : List Char) : Nat :=
  (s.takeWhile pyWs).length

/-- Does `t` match `[\d.,]+[-]?$`, i.e. is `t` a nonempty run of
amount characters, optionally followed by a single final `'-'`? -/
def amountTailMatch (t : List Char) : Bool :=
  match t.reverse with
  | [] => false
  | c :: rest =>
    if c = '-' then rest ≠ [] && rest.all amountChar
    else (c :: rest).all amountChar

/-- Match `\s+(\d{2}\.\d{2})\s+([\d.,]+[-]?)$` at the head of `s`,
returning groups 2 and 3.  The greedy `\s+` runs are maximal: a digit
is never whitespace, so regex backtracking into a shorter whitespace
run can never succeed, and the final greedy group with `$` behind it
must take the whole remainder. -/
def txRestMatch (s : List Char) : Option (List Char × List Char) :=
  let w := wsRun s
  if w = 0 then none
  else
    match s.drop w with
    | d1 :: d2 :: '.' :: m1 :: m2 :: rest =>
      if pyDigit d1 && pyDigit d2 && pyDigit m1 && pyDigit m2 then
        let w2 := wsRun rest
        if w2 = 0 then none
        else
          let amt := rest.drop w2
          if amountTailMatch amt then some ([d1, d2, '.', m1, m2], amt)
          else none
      else none
    | _ => none

/-- Lazy scan for `^(.+?)\s+(\d{2}\.\d{2})\s+([\d.,]+[-]?)$`: group 1
grows one character at a time (leftmost-shortest), and for each
candidate the rigid remainder of the pattern is tried. -/
def txLineMatchAux (pre : List Char) : List Char → Option (List Char × List Char × List Char)
  | [] => none
  | c :: rest =>
    match txRestMatch rest with
    | some (g2, g3) => some ((pre ++ [c]), g2, g3)
    | none => txLineMatchAux (pre ++ [c]) rest

/-- `re.search(TRANSACTION_PATTERN, line)` on a stripped line:
`^(.+?)\s+(\d{2}\.\d{2})\s+([\d.,]+[-]?)$`, returning the three groups. -/
def txLineMatch (s : List Char) : Option (List Char × List Char × List Char) :=
  txLineMatchAux [] s

/-- The `skip_patterns` catalog of `_is_non_transaction_line`: every
entry is a literal (`\.` denotes a literal dot); `true` marks the
`^`-anchored ones, `End-to-End-Ref` is searched anywhere in the line. -/
def skipPatterns : List (Bool × String) :=
  [(true, "Buchungsdatum:"),
   (false, "End-to-End-Ref"),
   (true, "Mandatsref:"),
   (true, "Gläubiger-ID:"),
   (true, "SEPA-"),
   (true, "Folgeseite"),
   (true, "Kontoauszug vom"),
   (true, "Auszug-Nr."),
   (true, "IBAN:"),
   (true, "BIC"),
   (true, "Kontowährung"),
   (true, "Angaben zu den Umsätzen")]

/-- `TransactionParser._is_non_transaction_line`. -/
def isNonTransactionLine (line : List Char) : Bool :=
  skipPatterns.any fun p =>
    if p.1 then p.2.toList.isPrefixOf line else containsChars p.2.toList line

/-- Python `s.rstrip('-')`: drop every trailing `'-'`. -/
def rstripMinus (s : List Char) : List Char :=
  (s.reverse.dropWhile (fun c => c = '-')).reverse

/-- Python `s.split('.')` restricted to digit/dot strings.  Only used
through `decimalOfChars`. -/
def splitDot : List Char → List (List Char)
  | [] => [[]]
  | c :: rest =>
    if c = '.' then [] :: splitDot rest
    else
      match splitDot rest with
      | [] => [[c]]
      | l :: ls => (c :: l) :: ls

/-- `Decimal(s)` on the digit/dot fragment: valid iff `s` holds at
least one digit, at most one dot and nothing else; the value is the
exact rational `intpart.fracpart`, built as a single fraction
`(intpart·10^k + fracpart) / 10^k` so that it evaluates by kernel
reduction. -/
def decimalOfChars (s : List Char) : Option ℚ :=
  match splitDot s with
  | [ipart] =>
    if ipart ≠ [] && ipart.all pyDigit then some (mkRat (natOfDigits ipart) 1) else none
  | [ipart, fpart] =>
    if (ipart ++ fpart) ≠ [] && ipart.all pyDigit && fpart.all pyDigit then
      some (mkRat (natOfDigits ipart * 10 ^ fpart.length + natOfDigits fpart)
        (10 ^ fpart.length))
    else none
  | _ => none

/-- `TransactionParser._parse_betrag`: note the trailing minus, strip
it, drop the thousands periods, turn the decimal comma into a dot,
parse exactly, negate if the minus was present. -/
def parseBetrag (s : List Char) : Except PErr ℚ :=
  let isNeg := s.getLast? = some '-'
  let stripped := rstripMinus s
  let converted := (stripped.filter (fun c => c ≠ '.')).map
    (fun c => if c = ',' then '.' else c)
  match decimalOfChars converted with
  | some q => .ok (if isNeg then -q else q)
  | none => .error .malformedAmount

/-- Decimal digit characters of `y`, little-endian, by fuel; empty for 0. -/
def natDigitsRev : Nat → Nat → List Char
  | 0, _ => []
  | fuel + 1, n =>
    if n = 0 then []
    else Char.ofNat (48 + n % 10) :: natDigitsRev fuel (n / 10)

/-- Python `str(n)` for a natural number. -/
def natDigits (n : Nat) : List Char :=
  if n = 0 then ['0'] else (natDigitsRev (n + 1) n).reverse

/-- `TransactionParser._parse_valuta`: `self.year` is an `Optional[int]`
and the guard is the Python falsy test `if not self.year`, so both
`None` and `0` raise; otherwise `f"{valuta_str}.{self.year}"` is parsed
with `strptime('%d.%m.%Y')`. -/
def parseValuta (year : Option Nat) (valutaStr : List Char) : Except PErr PyDate :=
  match year with
  | none => .error .yearNotResolved
  | some 0 => .error .yearNotResolved
  | some y => strptimeDMY (valutaStr ++ '.' :: natDigits y)

/-- `TransactionParser._extract_year`: first statement-date match,
validated by `strptime`; its year becomes the parse context. -/
def extractYear (text : List Char) : Except PErr Nat :=
  match searchStatement text with
  | none => .error .missingStatementDate
  | some ds =>
    match strptimeDMY ds with
    | .ok d => .ok d.year
    | .error e => .error e

/-- The model of `models.Transaction`. -/
structure Transaction where
  buchungsdatum : PyDate
  valuta : PyDate
  beschreibung : List Char
  betrag : ℚ
  waehrung : List Char
  gegenkonto_iban : Option (List Char)
  gegenkonto_bic : Option (List Char)
  verwendungszweck : Option (List Char)
deriving DecidableEq

/-- The loop body of `_collect_description`: walk at most `fuel`
(initially 5) lines, breaking at a transaction line or a booking-date
marker, skipping blank and catalog-noise lines, keeping the rest. -/
def collectParts : Nat → List (List Char) → List (List Char)
  | 0, _ => []
  | _ + 1, [] => []
  | fuel + 1, l :: rest =>
    let line := strip l
    if (txLineMatch line).isSome then []
    else if (searchBooking line).isSome then []
    else if line = [] then collectParts fuel rest
    else if isNonTransactionLine line then collectParts fuel rest
    else line :: collectParts fuel rest

/-- `TransactionParser._collect_description`, with `rest` the lines
after the transaction line (`lines[start_index:]`). -/
def collectDescription (rest : List (List Char)) (initialDesc : List Char) : List Char :=
  joinSpace (initialDesc :: collectParts 5 rest)

/-- `TransactionParser._try_parse_transaction`, with `curr` the current
line and `rest` the following lines.  Blank and catalog-noise lines are
rejected before the transaction pattern is tried. -/
def tryParseTransaction (curr : List Char) (rest : List (List Char))
    (year : Option Nat) (bookingDate : PyDate) : Except PErr (Option Transaction) :=
  let line := strip curr
  if line = [] then .ok none
  else if isNonTransactionLine line then .ok none
  else
    match txLineMatch line with
    | none => .ok none
    | some (descGroup, valutaStr, betragStr) =>
      let beschreibung := strip descGroup
      match parseValuta year valutaStr with
      | .error e => .error e
      | .ok valuta =>
        match parseBetrag betragStr with
        | .error e => .error e
        | .ok betrag =>
          let fullDescription := collectDescription rest beschreibung
          .ok (some
            { buchungsdatum := bookingDate
              valuta := valuta
              beschreibung := beschreibung
              betrag := betrag
              waehrung := "EUR".toList
              gegenkonto_iban := none
              gegenkonto_bic := none
              verwendungszweck := some fullDescription })

/-- The scanning loops of `TransactionParser.parse`, merged into one
cursor walk.  `mode = none` is the outer loop seeking a booking-date
marker; `mode = some bd` is the inner loop under booking date `bd`.
The inner loop's `break` returns to the outer loop at the same index,
which immediately re-tests the stripped line against the marker
pattern; the merge performs both tests on the same step.  Stripping
cannot change the outcome of the unanchored search, so the `none`
fallback after a raw-line hit returns to seeking exactly as the
source's outer loop would. -/
def scanLines (year : Option Nat) :
    List (List Char) → Option PyDate → List Transaction → Except PErr (List Transaction)
  | [], _, acc => .ok acc
  | line :: rest, none, acc =>
    match searchBooking (strip line) with
    | some dstr =>
      match strptimeDMY dstr with
      | .ok bd => scanLines year rest (some bd) acc
      | .error e => .error e
    | none => scanLines year rest none acc
  | line :: rest, some bd, acc =>
    match tryParseTransaction line rest year bd with
    | .error e => .error e
    | .ok (some tx) => scanLines year rest (some bd) (acc ++ [tx])
    | .ok none =>
      match searchBooking line with
      | some _ =>
        match searchBooking (strip line) with
        | some dstr =>
          match strptimeDMY dstr with
          | .ok bd2 => scanLines year rest (some bd2) acc
          | .error e => .error e
        | none => scanLines year rest none acc
      | none => scanLines year rest (some bd) acc

/-- `TransactionParser.parse`: resolve the statement year (or abort),
then scan the lines starting in seeking mode. -/
def parse (text : List Char) : Except PErr (List Transaction) :=
  match extractYear text with
  | .error e => .error e
  | .ok y => scanLines (some y) (splitNl text) none []

/-- Group a big-endian digit list in threes from the right with `'.'`,
working on the reversed list. -/
def group3Rev : List Char → List Char
  | d1 :: d2 :: d3 :: d4 :: rest => d1 :: d2 :: d3 :: '.' :: group3Rev (d4 :: rest)
  | l => l

/-- German thousands grouping of a digit string, the effect of the
`,`-grouped f-string format plus the separator swap in the source. -/
def group3 (ds : List Char) : List Char :=
  (group3Rev ds.reverse).reverse

/-- Two-digit zero-padded rendering of a value below 100 (every call
site passes a day, a month or an amount of cents modulo 100). -/
def pad2 (c : Nat) : List Char :=
  [Char.ofNat (48 + c / 10), Char.ofNat (48 + c % 10)]

/-- Round half-to-even of the fraction `a / b`, as the two-decimal
formatting does on the amount in cents. -/
def roundHalfEvenDiv (a b : Nat) : Nat :=
  let n := a / b
  let r := a % b
  if 2 * r < b then n
  else if b < 2 * r then n + 1
  else if n % 2 = 0 then n else n + 1

/-- The Unicode minus sign U+2212 used by the source for debits. -/
def minusSign : Char := Char.ofNat 0x2212

/-- `CSVWriter._format_betrag` (identical to
`Transaction._format_betrag`): round `|betrag| * 100` half-to-even to
whole cents (computed on the canonical numerator/denominator pair so
that it evaluates by kernel reduction), render with two fractional
digits and thousands grouping in German convention, and lead negative
amounts with U+2212.  The source's intermediate `float(betrag)`
conversion is modelled as exact. -/
def formatBetrag (betrag : ℚ) : List Char :=
  let cents := roundHalfEvenDiv (betrag.num.natAbs * 100) betrag.den
  let body := group3 (natDigits (cents / 100)) ++ ',' :: pad2 (cents % 100)
  if betrag < 0 then minusSign :: body else body

/-- Python `str.split('/')` on a path string. -/
def splitSlash : List Char → List (List Char)
  | [] => [[]]
  | c :: rest =>
    if c = '/' then [] :: splitSlash rest
    else
      match splitSlash rest with
      | [] => [[c]]
      | l :: ls => (c :: l) :: ls

/-- `PurePath.name` on a POSIX path: the final component, with empty
and `'.'` components dropped. -/
def pathName (p : List Char) : List Char :=
  ((splitSlash p).filter (fun comp => comp ≠ [] && comp ≠ ['.'])).getLastD []

/-- Index of the last `'.'` in `name`, if any. -/
def lastDotIdx (name : List Char) : Option Nat :=
  match name.reverse.findIdx? (fun c => c = '.') with
  | none => none
  | some j => some (name.length - 1 - j)

/-- `PurePath.suffix`: the part of the name from its last dot, unless
that dot is the first or last character. -/
def pathSuffix (p : List Char) : List Char :=
  let name := pathName p
  match lastDotIdx name with
  | none => []
  | some i => if 0 < i && i + 1 < name.length then name.drop i else []

/-- Python `str.lower()` on the ASCII fragment. -/
def lowerChars (s : List Char) : List Char :=
  s.map fun c => if 'A' ≤ c && c ≤ 'Z' then Char.ofNat (c.toNat + 32) else c

/-- `CSVWriter._get_umsatzart`: `Lastschrift` for a debit
(`betrag < 0`), `Gutschrift` otherwise. -/
def getUmsatzart (t : Transaction) : List Char :=
  if t.betrag < 0 then "Lastschrift".toList else "Gutschrift".toList

/-- `date.strftime('%d.%m.%Y')` (zero-padded day and month; the years
reaching this point are four-digit). -/
def strftimeDMY (d : PyDate) : List Char :=
  pad2 d.day ++ '.' :: pad2 d.month ++ '.' :: natDigits d.year

/-- `CSVWriter._transaction_to_row`, in the header's column order.
`transaction.verwendungszweck or transaction.beschreibung` falls back
on the description when the memo is `None` or empty (Python falsiness). -/
def transactionToRow (t : Transaction) : List (List Char) :=
  [strftimeDMY t.buchungsdatum,
   strftimeDMY t.valuta,
   getUmsatzart t,
   (match t.verwendungszweck with
    | none => t.beschreibung
    | some [] => t.beschreibung
    | some v => v),
   formatBetrag t.betrag,
   t.waehrung,
   [],
   [],
   t.gegenkonto_iban.getD []]

/-- The CSV header of `CSVWriter.HEADER`. -/
def csvHeader : List (List Char) :=
  ["Buchungstag".toList, "Wertstellung".toList, "Umsatzart".toList,
   "Buchungstext".toList, "Betrag".toList, "Währung".toList,
   "Auftraggeberkonto".toList, "Bankleitzahl Auftraggeberkonto".toList,
   "IBAN Auftraggeberkonto".toList]

/-- `CSVWriter.write`: reject an empty record list, then validate the
destination suffix as `_validate_output_path` does; on success return
the header row followed by one row per transaction (the file I/O is
modelled by returning the rows that would be written; on error nothing
is written). -/
def writeCsv (transactions : List Transaction) (outputPath : List Char) :
    Except PErr (List (List (List Char))) :=
  if transactions = [] then .error .emptyTransactions
  else if lowerChars (pathSuffix outputPath) ≠ ".csv".toList then .error .invalidDestination
  else .ok (csvHeader :: transactions.map transactionToRow)

/-- An observable event of the scanner: `visit i` records that
`_try_parse_transaction` was invoked on line `i`; `marker i d` records
that the scanner consumed line `i` as a booking-date marker announcing
`d`; `emit i span tx` records that line `i` was consumed as the
transaction line of `tx` with `span` the indices of the lines joined
into its continuation memo. -/
inductive Ev where
  | visit (i : Nat)
  | marker (i : Nat) (d : PyDate)
  | emit (i : Nat) (span : List Nat) (tx : Transaction)
deriving DecidableEq

/-- `collectParts` instrumented with absolute line indices: the same
walk, also reporting which line index each kept part came from. -/
def collectPartsIdx : Nat → Nat → List (List Char) → List (Nat × List Char)
  | 0, _, _ => []
  | _ + 1, _, [] => []
  | fuel + 1, base, l :: rest =>
    let line := strip l
    if (txLineMatch line).isSome then []
    else if (searchBooking line).isSome then []
    else if line = [] then collectPartsIdx fuel (base + 1) rest
    else if isNonTransactionLine line then collectPartsIdx fuel (base + 1) rest
    else (base, line) :: collectPartsIdx fuel (base + 1) rest

/-- Indices of the lines joined into the continuation memo of a
transaction line at index `i`, taken from the following lines `rest`. -/
def spanOf (i : Nat) (rest : List (List Char)) : List Nat :=
  (collectPartsIdx 5 (i + 1) rest).map Prod.fst

/-- `scanLines` instrumented to return its event trace instead of the
record list; branch for branch the same walk. -/
def scanTraceAux (year : Option Nat) :
    List (List Char) → Nat → Option PyDate → Except PErr (List Ev)
  | [], _, _ => .ok []
  | line :: rest, i, none =>
    match searchBooking (strip line) with
    | some dstr =>
      match strptimeDMY dstr with
      | .ok bd => (scanTraceAux year rest (i + 1) (some bd)).map (Ev.marker i bd :: ·)
      | .error e => .error e
    | none => scanTraceAux year rest (i + 1) none
  | line :: rest, i, some bd =>
    match tryParseTransaction line rest year bd with
    | .error e => .error e
    | .ok (some tx) =>
      (scanTraceAux year rest (i + 1) (some bd)).map
        (Ev.visit i :: Ev.emit i (spanOf i rest) tx :: ·)
    | .ok none =>
      match searchBooking line with
      | some _ =>
        match searchBooking (strip line) with
        | some dstr =>
          match strptimeDMY dstr with
          | .ok bd2 =>
            (scanTraceAux year rest (i + 1) (some bd2)).map
              (Ev.visit i :: Ev.marker i bd2 :: ·)
          | .error e => .error e
        | none => (scanTraceAux year rest (i + 1) none).map (Ev.visit i :: ·)
      | none => (scanTraceAux year rest (i + 1) (some bd)).map (Ev.visit i :: ·)

/-- The event trace of a whole `parse` run. -/
def scanTrace (text : List Char) : Except PErr (List Ev) :=
  match extractYear text with
  | .error e => .error e
  | .ok y => scanTraceAux (some y) (splitNl text) 0 none

/-- The transactions emitted along a trace, in order. -/
def emitsOf : List Ev → List Transaction
  | [] => []
  | .emit _ _ tx :: es => tx :: emitsOf es
  | _ :: es => emitsOf es

/-- Booking-date government along a trace: starting from mode `m`, a
record may only be emitted under a current marker date, and must carry
exactly that date; each marker event installs its announced date. -/
def govOk : Option PyDate → List Ev → Bool
  | m, .visit _ :: es => govOk m es
  | _, .marker _ d :: es => govOk (some d) es
  | m, .emit _ _ tx :: es => m = some tx.buchungsdatum && govOk m es
  | _, [] => true

/-- Scan of a trace checking that no index consumed by an earlier
`emit` (its transaction line or its continuation span) is ever
examined again. -/
def noReexamine (consumed : List Nat) : List Ev → Bool
  | [] => true
  | .visit j :: es => !consumed.contains j && noReexamine consumed es
  | .marker _ _ :: es => noReexamine consumed es
  | .emit i span _ :: es => noReexamine (consumed ++ i :: span) es

/-- Line index carried by an event. -/
def evIdx : Ev → Nat
  | .visit i => i
  | .marker i _ => i
  | .emit i _ _ => i

/-- Event indices form a chain that never drops below the running
lower bound: the cursor never moves backwards. -/
def chainGE : Nat → List Ev → Bool
  | _, [] => true
  | i, e :: es => i ≤ evIdx e && chainGE (evIdx e) es

/-- Visited indices are strictly increasing above the bound: no line
is handed to `_try_parse_transaction` twice. -/
def visitsLB : Nat → List Ev → Bool
  | _, [] => true
  | i, .visit j :: es => i ≤ j && visitsLB (j + 1) es
  | i, .marker _ _ :: es => visitsLB i es
  | i, .emit _ _ _ :: es => visitsLB i es

/-- Does the event list continue with the visit of line `i + 1` (or
end)?  Used to state what the scanner does right after an `emit`. -/
def afterEmit (i : Nat) : List Ev → Bool
  | [] => true
  | .visit j :: _ => j = i + 1
  | .marker _ _ :: _ => false
  | .emit _ _ _ :: _ => false

/-- After every `emit` at line `i`, the next event (if any) is the
visit of line `i + 1`: the scanner advances exactly one line past the
transaction line, not past its continuation span. -/
def advOne : List Ev → Bool
  | [] => true
  | .visit _ :: es => advOne es
  | .marker _ _ :: es => advOne es
  | .emit i _ _ :: es => afterEmit i es && advOne es

/-- A stripped line that terminates the continuation scan: a new
transaction line or a new booking-date marker. -/
def stopLine (l : List Char) : Bool :=
  (txLineMatch l).isSome || (searchBooking l).isSome

/-- A stripped line that the continuation scan keeps: non-blank and
not catalog noise. -/
def keepLine (l : List Char) : Bool :=
  l ≠ [] && !isNonTransactionLine l

/-- The look-ahead window of the claim: at most five following lines,
stripped, cut at the first transaction line or booking-date marker,
with blank and catalog-noise lines dropped. -/
def specMemoParts (following : List (List Char)) : List (List Char) :=
  (((following.take 5).map strip).takeWhile (fun l => !stopLine l)).filter keepLine

/-- The claim's extended memo: the description followed, space-joined,
by the kept window lines. -/
def specMemo (desc : List Char) (following : List (List Char)) : List Char :=
  joinSpace (desc :: specMemoParts following)

/-! ### Inversion and classification lemmas -/

lemma tryParse_some_inv {curr : List Char} {rest : List (List Char)}
    {year : Option Nat} {bd : PyDate} {tx : Transaction}
    (h : tryParseTransaction curr rest year bd = .ok (some tx)) :
    strip curr ≠ [] ∧ isNonTransactionLine (strip curr) = false ∧
    ∃ dg vs bs, txLineMatch (strip curr) = some (dg, vs, bs) ∧
      ∃ v q, parseValuta year vs = .ok v ∧ parseBetrag bs = .ok q ∧
        tx = { buchungsdatum := bd, valuta := v, beschreibung := strip dg, betrag := q,
               waehrung := "EUR".toList, gegenkonto_iban := none, gegenkonto_bic := none,
               verwendungszweck := some (collectDescription rest (strip dg)) } := by
  simp only [tryParseTransaction] at h
  split at h
  · exact absurd h (by simp)
  · split at h
    · exact absurd h (by simp)
    · rename_i hblank hnoise
      split at h
      · exact absurd h (by simp)
      · rename_i dg vs bs hmatch
        refine ⟨hblank, by simpa using hnoise, dg, vs, bs, hmatch, ?_⟩
        split at h
        · exact absurd h (by simp)
        · rename_i v hv
          split at h
          · exact absurd h (by simp)
          · rename_i q hq
            refine ⟨v, q, hv, hq, ?_⟩
            simpa using h.symm

lemma tryParse_some_buchungsdatum {curr : List Char} {rest : List (List Char)}
    {year : Option Nat} {bd : PyDate} {tx : Transaction}
    (h : tryParseTransaction curr rest year bd = .ok (some tx)) :
    tx.buchungsdatum = bd := by
  obtain ⟨-, -, dg, vs, bs, -, v, q, -, -, htx⟩ := tryParse_some_inv h
  rw [htx]

/-! ### Claim C1 -/

/-- Claim C1: whenever the statement-date header pattern
`Kontoauszug vom DD.MM.YYYY` matches nowhere in the input text,
`parse` fails with the missing-statement-date condition, so no
transaction list (in particular no partial one) is returned. -/
theorem claim_C1 (text : List Char) (h : searchStatement text = none) :
    parse text = .error .missingStatementDate := by
  unfold parse extractYear
  rw [h]

/-- Witness for C1 at a concrete headerless text. -/
theorem claim_C1_witness :
    searchStatement ("hello world".toList) = none ∧
    parse ("hello world".toList) = .error .missingStatementDate :=
  ⟨by decide, claim_C1 ("hello world".toList) (by decide)⟩

/-! ### Claim C10 -/

/-- Claim C10: the CSV writer rejects an empty record list instead of
emitting a header-only file, and rejects a destination whose
(lower-cased) path suffix is not `.csv`; in either case the result is
an error carrying no rows, so nothing is written. -/
theorem claim_C10 (transactions : List Transaction) (outputPath : List Char) :
    (transactions = [] → writeCsv transactions outputPath = .error .emptyTransactions) ∧
    (lowerChars (pathSuffix outputPath) ≠ ".csv".toList →
      ∃ e, writeCsv transactions outputPath = .error e) := by
  constructor
  · intro h
    simp [writeCsv, h]
  · intro h
    by_cases ht : transactions = []
    · exact ⟨.emptyTransactions, by simp [writeCsv, ht]⟩
    · refine ⟨.invalidDestination, by simp [writeCsv, ht]; simpa using h⟩

/-- A concrete transaction record used by witness instantiations. -/
def sampleTransaction : Transaction :=
  { buchungsdatum := ⟨2021, 4, 1⟩, valuta := ⟨2021, 4, 1⟩,
    beschreibung := "MUSTERFIRMA GMBH".toList, betrag := mkRat (-88) 5,
    waehrung := "EUR".toList, gegenkonto_iban := none, gegenkonto_bic := none,
    verwendungszweck := some ("MUSTERFIRMA GMBH RATE PER 01.04.2021".toList) }

/-- Witness for C10: the empty list is rejected even on a good path,
and a `.txt` destination is rejected even with a record available. -/
theorem claim_C10_witness :
    writeCsv [] ("out.csv".toList) = .error .emptyTransactions ∧
    ∃ e, writeCsv [sampleTransaction] ("out.txt".toList) = .error e :=
  ⟨(claim_C10 [] ("out.csv".toList)).1 rfl,
   (claim_C10 [sampleTransaction] ("out.txt".toList)).2 (by decide)⟩

/-! ### Claim C7 -/

/-- Claim C7: `parse` fails a document atomically.  An error outcome
excludes any transaction list, and the scanning loop's error outcome
does not depend on the records accumulated before the failing line, so
no partial list of previously parsed records can survive a hard error. -/
theorem claim_C7 :
    (∀ (text : List Char) (e : PErr) (l : List Transaction),
      parse text = .error e → parse text ≠ .ok l) ∧
    (∀ (year : Option Nat) (ls : List (List Char)) (mode : Option PyDate)
      (acc acc' : List Transaction) (e : PErr),
      scanLines year ls mode acc = .error e → scanLines year ls mode acc' = .error e) := by
  constructor
  · intro text e l h hk
    rw [h] at hk
    exact Except.noConfusion hk
  · intro year ls
    induction ls with
    | nil => intro mode acc acc' e h; simp [scanLines] at h
    | cons line rest ih =>
      intro mode acc acc' e h
      match mode with
      | none =>
        cases hm : searchBooking (strip line) with
        | none =>
          simp only [scanLines, hm] at h ⊢
          exact ih none acc acc' e h
        | some dstr =>
          cases hd : strptimeDMY dstr with
          | ok bd =>
            simp only [scanLines, hm, hd] at h ⊢
            exact ih (some bd) acc acc' e h
          | error e2 =>
            simp only [scanLines, hm, hd] at h ⊢
            exact h
      | some bd =>
        cases ht : tryParseTransaction line rest year bd with
        | error e2 =>
          simp only [scanLines, ht] at h ⊢
          exact h
        | ok otx =>
          cases otx with
          | some tx =>
            simp only [scanLines, ht] at h ⊢
            exact ih (some bd) (acc ++ [tx]) (acc' ++ [tx]) e h
          | none =>
            cases hraw : searchBooking line with
            | none =>
              simp only [scanLines, ht, hraw] at h ⊢
              exact ih (some bd) acc acc' e h
            | some g =>
              cases hm : searchBooking (strip line) with
              | none =>
                simp only [scanLines, ht, hraw, hm] at h ⊢
                exact ih none acc acc' e h
              | some dstr =>
                cases hd : strptimeDMY dstr with
                | ok bd2 =>
                  simp only [scanLines, ht, hraw, hm, hd] at h ⊢
                  exact ih (some bd2) acc acc' e h
                | error e2 =>
                  simp only [scanLines, ht, hraw, hm, hd] at h ⊢
                  exact h

/-- Witness for C7 at a text whose second matched transaction line has
the malformed amount `1,2,3-`: the record parsed before it is
discarded and the whole parse errors. -/
theorem claim_C7_witness :
    parse ("Kontoauszug vom 30.04.2021\nBuchungsdatum: 01.04.2021\nSHOP 01.04 5,00-\nBAD 02.04 1,2,3-".toList)
      ≠ .ok [sampleTransaction] ∧
    scanLines (some 2021) [("BAD 02.04 1,2,3-".toList)] (some ⟨2021, 4, 1⟩) [sampleTransaction]
      = .error .malformedAmount :=
  ⟨claim_C7.1 _ .malformedAmount [sampleTransaction] (by decide),
   claim_C7.2 (some 2021) [("BAD 02.04 1,2,3-".toList)] (some ⟨2021, 4, 1⟩) [] [sampleTransaction]
     .malformedAmount (by decide)⟩

/-! ### Error classification, towards claim C9 -/

lemma strptimeDMY_error {s : List Char} {e : PErr} (h : strptimeDMY s = .error e) :
    e = .invalidDate := by
  unfold strptimeDMY at h
  split at h
  · split at h
    · dsimp only at h
      split at h
      · exact absurd h (by simp)
      · exact (Except.error.inj h).symm
    · exact (Except.error.inj h).symm
  · exact (Except.error.inj h).symm

lemma strptimeDMY_year_pos {s : List Char} {d : PyDate} (h : strptimeDMY s = .ok d) :
    1 ≤ d.year := by
  unfold strptimeDMY at h
  split at h
  · split at h
    · dsimp only at h
      split at h
      · rename_i hcond
        cases Except.ok.inj h
        simp only [Bool.and_eq_true, decide_eq_true_eq] at hcond
        exact hcond.1.1.1.1.1
      · exact absurd h (by simp)
    · exact absurd h (by simp)
  · exact absurd h (by simp)

lemma parseBetrag_error {s : List Char} {e : PErr} (h : parseBetrag s = .error e) :
    e = .malformedAmount := by
  simp only [parseBetrag] at h
  split at h
  · exact absurd h (by simp)
  · exact (Except.error.inj h).symm

lemma parseValuta_error_pos {y : Nat} (hy : 1 ≤ y) {v : List Char} {e : PErr}
    (h : parseValuta (some y) v = .error e) : e = .invalidDate := by
  match y, hy with
  | k + 1, _ => exact strptimeDMY_error h

lemma tryParse_error_classify {curr : List Char} {rest : List (List Char)} {y : Nat}
    (hy : 1 ≤ y) {bd : PyDate} {e : PErr}
    (h : tryParseTransaction curr rest (some y) bd = .error e) :
    e = .invalidDate ∨ e = .malformedAmount := by
  simp only [tryParseTransaction] at h
  split at h
  · exact absurd h (by simp)
  · split at h
    · exact absurd h (by simp)
    · split at h
      · exact absurd h (by simp)
      · split at h
        · rename_i hv
          cases Except.error.inj h
          exact Or.inl (parseValuta_error_pos hy hv)
        · split at h
          · rename_i hq
            cases Except.error.inj h
            exact Or.inr (parseBetrag_error hq)
          · exact absurd h (by simp)

lemma scanLines_error_classify {y : Nat} (hy : 1 ≤ y) :
    ∀ (ls : List (List Char)) (mode : Option PyDate) (acc : List Transaction) (e : PErr),
      scanLines (some y) ls mode acc = .error e → e = .invalidDate ∨ e = .malformedAmount := by
  intro ls
  induction ls with
  | nil => intro mode acc e h; simp [scanLines] at h
  | cons line rest ih =>
    intro mode acc e h
    match mode with
    | none =>
      cases hm : searchBooking (strip line) with
      | none =>
        simp only [scanLines, hm] at h
        exact ih none acc e h
      | some dstr =>
        cases hd : strptimeDMY dstr with
        | ok bd =>
          simp only [scanLines, hm, hd] at h
          exact ih (some bd) acc e h
        | error e2 =>
          simp only [scanLines, hm, hd] at h
          cases Except.error.inj h
          exact Or.inl (strptimeDMY_error hd)
    | some bd =>
      cases ht : tryParseTransaction line rest (some y) bd with
      | error e2 =>
        simp only [scanLines, ht] at h
        cases Except.error.inj h
        exact tryParse_error_classify hy ht
      | ok otx =>
        cases otx with
        | some tx =>
          simp only [scanLines, ht] at h
          exact ih (some bd) (acc ++ [tx]) e h
        | none =>
          cases hraw : searchBooking line with
          | none =>
            simp only [scanLines, ht, hraw] at h
            exact ih (some bd) acc e h
          | some g =>
            cases hm : searchBooking (strip line) with
            | none =>
              simp only [scanLines, ht, hraw, hm] at h
              exact ih none acc e h
            | some dstr =>
              cases hd : strptimeDMY dstr with
              | ok bd2 =>
                simp only [scanLines, ht, hraw, hm, hd] at h
                exact ih (some bd2) acc e h
              | error e2 =>
                simp only [scanLines, ht, hraw, hm, hd] at h
                cases Except.error.inj h
                exact Or.inl (strptimeDMY_error hd)

lemma extractYear_pos {text : List Char} {y : Nat} (h : extractYear text = .ok y) :
    1 ≤ y := by
  unfold extractYear at h
  split at h
  · exact absurd h (by simp)
  · split at h
    · rename_i d hd
      cases Except.ok.inj h
      exact strptimeDMY_year_pos hd
    · exact absurd h (by simp)

lemma extractYear_error {text : List Char} {e : PErr} (h : extractYear text = .error e) :
    e = .missingStatementDate ∨ e = .invalidDate := by
  unfold extractYear at h
  split at h
  · exact Or.inl (Except.error.inj h).symm
  · split at h
    · exact absurd h (by simp)
    · rename_i hd
      cases Except.error.inj h
      exact Or.inr (strptimeDMY_error hd)

/-! ### Claim C9 -/

/-- Claim C9: a value-date parse attempted with no resolved statement
year fails with the distinct year-not-resolved condition, and this
branch is unreachable from `parse`, which resolves the year (or
aborts) before scanning any line: no error `parse` ever returns is the
year-not-resolved one. -/
theorem claim_C9 :
    (∀ v : List Char, parseValuta none v = .error .yearNotResolved) ∧
    (∀ (text : List Char) (e : PErr), parse text = .error e → e ≠ .yearNotResolved) := by
  constructor
  · intro v
    rfl
  · intro text e h
    unfold parse at h
    cases hx : extractYear text with
    | error e2 =>
      rw [hx] at h
      cases Except.error.inj h
      rcases extractYear_error hx with h' | h' <;> simp [h']
    | ok y =>
      rw [hx] at h
      rcases scanLines_error_classify (extractYear_pos hx) _ _ _ _ h with h' | h' <;> simp [h']

/-- Witness for C9: the year-not-resolved error at a concrete
value-date string, and a concrete erroring parse whose error is the
missing-statement-date one, not year-not-resolved. -/
theorem claim_C9_witness :
    parseValuta none ("01.04".toList) = .error .yearNotResolved ∧
    PErr.missingStatementDate ≠ PErr.yearNotResolved :=
  ⟨claim_C9.1 ("01.04".toList),
   claim_C9.2 ("Auszug-Nr. 4".toList) .missingStatementDate (by decide)⟩

/-! ### Claim C4 -/

/-- The line of the C4 counterexample: it matches the transaction
pattern and also the noise catalog (it contains `End-to-End-Ref`). -/
def c4Line : List Char := "End-to-End-Ref 01.04 17,60-".toList

/-- A statement containing the C4 counterexample line inside a
booking block. -/
def c4Text : List Char :=
  "Kontoauszug vom 30.04.2021\nBuchungsdatum: 01.04.2021\nEnd-to-End-Ref 01.04 17,60-".toList

/-- Counterexample to C4 as stated: inside a booking block, a line
matching both the transaction pattern and a noise-catalog pattern is
classified as noise, not as a transaction — the noise catalog is
checked before the transaction pattern, so the successful parse of
`c4Text` emits no record at all for `c4Line`. -/
theorem claim_C4_counterexample :
    (txLineMatch (strip c4Line)).isSome = true ∧
    isNonTransactionLine (strip c4Line) = true ∧
    parse c4Text = .ok [] := by
  refine ⟨by decide, by decide, by decide⟩

/-- Amended claim C4: inside a booking block a line is classified in
this order: blank first, then the noise catalog (whose first entry is
the line-initial booking-marker prefix), then the transaction pattern;
a line matching both the transaction pattern and a noise-catalog
pattern is classified as noise and yields no record; the booking-date
marker search runs only after a line has produced no record, and a
line that does parse as a transaction is emitted under the current
block even when the marker pattern also occurs in it. -/
theorem claim_C4_amended (curr : List Char) (rest : List (List Char))
    (year : Option Nat) (bd : PyDate) :
    (strip curr = [] ∨ isNonTransactionLine (strip curr) = true →
      tryParseTransaction curr rest year bd = .ok none) ∧
    (∀ tx, tryParseTransaction curr rest year bd = .ok (some tx) →
      strip curr ≠ [] ∧ isNonTransactionLine (strip curr) = false ∧
        (txLineMatch (strip curr)).isSome = true) ∧
    (∀ acc tx, tryParseTransaction curr rest year bd = .ok (some tx) →
      scanLines year (curr :: rest) (some bd) acc =
        scanLines year rest (some bd) (acc ++ [tx])) := by
  refine ⟨?_, ?_, ?_⟩
  · intro h
    rcases h with h | h
    · simp [tryParseTransaction, h]
    · simp only [tryParseTransaction, h]
      split
      · rfl
      · rfl
  · intro tx h
    obtain ⟨hb, hn, dg, vs, bs, hmatch, -⟩ := tryParse_some_inv h
    exact ⟨hb, hn, by simp [hmatch]⟩
  · intro acc tx h
    simp only [scanLines, h]

/-- Witness for the amended C4 at concrete lines: a noise line yields
no record, and a transaction line is emitted with the marker search
never consulted. -/
theorem claim_C4_amended_witness :
    tryParseTransaction ("SEPA-BASISLASTSCHRIFT wiederholend".toList) [] (some 2021) ⟨2021, 4, 1⟩
      = .ok none ∧
    scanLines (some 2021) [("SHOP 01.04 5,00-".toList)] (some ⟨2021, 4, 1⟩) [] =
      scanLines (some 2021) [] (some ⟨2021, 4, 1⟩) ([] ++ [{
        buchungsdatum := ⟨2021, 4, 1⟩, valuta := ⟨2021, 4, 1⟩,
        beschreibung := "SHOP".toList, betrag := -5,
        waehrung := "EUR".toList, gegenkonto_iban := none, gegenkonto_bic := none,
        verwendungszweck := some ("SHOP".toList) }]) :=
  ⟨(claim_C4_amended ("SEPA-BASISLASTSCHRIFT wiederholend".toList) [] (some 2021) ⟨2021, 4, 1⟩).1
      (Or.inr (by decide)),
   (claim_C4_amended ("SHOP 01.04 5,00-".toList) [] (some 2021) ⟨2021, 4, 1⟩).2.2 [] _ (by decide)⟩

/-! ### Claim C5 -/

lemma collectParts_eq_spec (rest : List (List Char)) :
    ∀ n, collectParts n rest =
      (((rest.take n).map strip).takeWhile (fun l => !stopLine l)).filter keepLine := by
  induction rest with
  | nil => intro n; cases n <;> simp [collectParts]
  | cons l r ih =>
    intro n
    cases n with
    | zero => simp [collectParts]
    | succ m =>
      by_cases h1 : (txLineMatch (strip l)).isSome
      · have hs : stopLine (strip l) = true := by simp [stopLine, h1]
        simp [collectParts, h1, hs, List.takeWhile_cons]
      · by_cases h2 : (searchBooking (strip l)).isSome
        · have hs : stopLine (strip l) = true := by simp [stopLine, h2]
          simp [collectParts, h1, h2, hs, List.takeWhile_cons]
        · have hs : stopLine (strip l) = false := by simp [stopLine, h1, h2]
          by_cases h3 : strip l = []
          · have hk : keepLine (strip l) = false := by simp [keepLine, h3]
            have h5 : (txLineMatch ([] : List Char)).isSome = false := by decide
            have h6 : (searchBooking ([] : List Char)).isSome = false := by decide
            have h7 : stopLine ([] : List Char) = false := by decide
            have h8 : keepLine ([] : List Char) = false := by decide
            simp [collectParts, h1, h2, h3, hs, hk, h5, h6, h7, h8, ih m,
              List.takeWhile_cons, List.filter_cons]
          · by_cases h4 : isNonTransactionLine (strip l)
            · have hk : keepLine (strip l) = false := by simp [keepLine, h4]
              simp [collectParts, h1, h2, h3, h4, hs, hk, ih m, List.takeWhile_cons,
                List.filter_cons]
            · have hk : keepLine (strip l) = true := by simp [keepLine, h3, h4]
              simp [collectParts, h1, h2, h3, h4, hs, hk, ih m, List.takeWhile_cons,
                List.filter_cons]

lemma collectParts5_eq_specMemoParts (rest : List (List Char)) :
    collectParts 5 rest = specMemoParts rest := by
  rw [specMemoParts]
  exact collectParts_eq_spec rest 5

/-- Claim C5: the extended memo of every successfully parsed
transaction line is its own description followed, space-joined in
encounter order, by the non-blank non-noise lines of the look-ahead
window of at most 5 following lines, where blank and catalog-noise
lines are skipped without ending the scan and the scan stops (without
consuming) at a transaction line or booking-date marker; with no kept
continuation lines the memo is just the description. -/
theorem claim_C5 (curr : List Char) (rest : List (List Char)) (year : Option Nat)
    (bd : PyDate) (tx : Transaction)
    (h : tryParseTransaction curr rest year bd = .ok (some tx)) :
    tx.verwendungszweck = some (specMemo tx.beschreibung rest) ∧
    (specMemoParts rest = [] → tx.verwendungszweck = some tx.beschreibung) := by
  obtain ⟨-, -, dg, vs, bs, -, v, q, -, -, htx⟩ := tryParse_some_inv h
  subst htx
  dsimp only
  constructor
  · rw [collectDescription, specMemo, collectParts5_eq_specMemoParts]
  · intro hnil
    rw [collectDescription, collectParts5_eq_specMemoParts, hnil]
    rfl

/-- Continuation lines for the C5 witness: one kept line, a blank, a
noise line, then a booking-date marker that stops the scan. -/
def c5Rest : List (List Char) :=
  ["RATE PER X".toList, [], "End-to-End-Ref.: Y".toList,
   "Buchungsdatum: 06.04.2021".toList, "zzz".toList]

/-- The record parsed from the C5 witness line. -/
def c5Tx : Transaction :=
  { buchungsdatum := ⟨2021, 4, 1⟩, valuta := ⟨2021, 4, 1⟩,
    beschreibung := "SHOP".toList, betrag := -5,
    waehrung := "EUR".toList, gegenkonto_iban := none, gegenkonto_bic := none,
    verwendungszweck := some ("SHOP RATE PER X".toList) }

/-- Witness for C5 at a concrete transaction line with a kept
continuation line, a skipped blank, a skipped noise line and a
stopping booking-date marker. -/
theorem claim_C5_witness :
    tryParseTransaction ("SHOP 01.04 5,00-".toList) c5Rest (some 2021) ⟨2021, 4, 1⟩
      = .ok (some c5Tx) ∧
    c5Tx.verwendungszweck = some (specMemo c5Tx.beschreibung c5Rest) :=
  ⟨by decide,
   (claim_C5 ("SHOP 01.04 5,00-".toList) c5Rest (some 2021) ⟨2021, 4, 1⟩ c5Tx (by decide)).1⟩

/-! ### Claim C6 -/

lemma pyDigit_ne_minus {c : Char} (h : pyDigit c = true) : c ≠ '-' := by
  rintro rfl
  exact absurd h (by decide)

lemma pyDigit_ne_dot {c : Char} (h : pyDigit c = true) : c ≠ '.' := by
  rintro rfl
  exact absurd h (by decide)

lemma pyDigit_ne_comma {c : Char} (h : pyDigit c = true) : c ≠ ',' := by
  rintro rfl
  exact absurd h (by decide)

lemma rstripMinus_concat (l : List Char) : rstripMinus (l ++ ['-']) = rstripMinus l := by
  simp [rstripMinus, List.dropWhile]

lemma rstripMinus_of_last_digit {l : List Char} {c : Char}
    (hl : l.getLast? = some c) (hc : pyDigit c = true) : rstripMinus l = l := by
  cases hr : l.reverse with
  | nil =>
    have h0 : l = [] := by simpa using congrArg List.reverse hr
    simp [h0, rstripMinus]
  | cons x t =>
    have hx : x = c := by
      have h1 : l.reverse.head? = some c := by rw [List.head?_reverse]; exact hl
      rw [hr] at h1
      simpa using h1
    subst hx
    have h2 : rstripMinus l = ((x :: t).dropWhile (fun c => c = '-')).reverse := by
      rw [rstripMinus, hr]
    rw [h2, List.dropWhile_cons_of_neg (by simpa using pyDigit_ne_minus hc), ← hr,
      List.reverse_reverse]

lemma getLast?_append_of_ne_nil' {l₁ l₂ : List Char} (h : l₂ ≠ []) :
    (l₁ ++ l₂).getLast? = l₂.getLast? := by
  cases l₂ with
  | nil => exact absurd rfl h
  | cons x t => exact List.getLast?_append_cons l₁ x t

lemma filter_eq_self_of_digits {l : List Char} (h : ∀ c ∈ l, pyDigit c = true) :
    l.filter (fun c => c ≠ '.') = l := by
  induction l with
  | nil => rfl
  | cons x t ih =>
    have hx := h x (by simp)
    rw [List.filter_cons_of_pos (by simpa using pyDigit_ne_dot hx)]
    rw [ih fun c hc => h c (by simp [hc])]

lemma map_comma_eq_self_of_digits {l : List Char} (h : ∀ c ∈ l, pyDigit c = true) :
    l.map (fun c => if c = ',' then '.' else c) = l := by
  induction l with
  | nil => rfl
  | cons x t ih =>
    have hx := h x (by simp)
    simp only [List.map_cons, if_neg (pyDigit_ne_comma hx)]
    rw [ih fun c hc => h c (by simp [hc])]

lemma splitDot_of_no_dot {l : List Char} (h : ∀ c ∈ l, c ≠ '.') : splitDot l = [l] := by
  induction l with
  | nil => rfl
  | cons x t ih =>
    have hx := h x (by simp)
    rw [splitDot, if_neg hx, ih fun c hc => h c (by simp [hc])]

lemma splitDot_sep {x y : List Char} (hx : ∀ c ∈ x, c ≠ '.') (hy : ∀ c ∈ y, c ≠ '.') :
    splitDot (x ++ '.' :: y) = [x, y] := by
  induction x with
  | nil =>
    rw [List.nil_append, splitDot, if_pos rfl, splitDot_of_no_dot hy]
  | cons c t ih =>
    have hc := hx c (by simp)
    rw [List.cons_append, splitDot, if_neg hc, ih fun d hd => hx d (by simp [hd])]

lemma decimalOfChars_sep {x y : List Char} (hx : ∀ c ∈ x, pyDigit c = true)
    (hy : ∀ c ∈ y, pyDigit c = true) (hy0 : y ≠ []) :
    decimalOfChars (x ++ '.' :: y) =
      some (mkRat (natOfDigits x * 10 ^ y.length + natOfDigits y) (10 ^ y.length)) := by
  rw [decimalOfChars, splitDot_sep (fun c hc => pyDigit_ne_dot (hx c hc))
    (fun c hc => pyDigit_ne_dot (hy c hc))]
  have hcond : (decide ((x ++ y) ≠ []) && x.all pyDigit && y.all pyDigit) = true := by
    have h1 : (x ++ y) ≠ [] := fun hveq => hy0 (List.append_eq_nil.mp hveq).2
    simp only [Bool.and_eq_true, decide_eq_true_eq, List.all_eq_true]
    exact ⟨⟨h1, hx⟩, hy⟩
  simp [hcond]
  refine ⟨Or.inr hy0, hx, hy⟩

lemma parseBetrag_value (ip fp : List Char) (neg : Bool)
    (hip : ∀ c ∈ ip, pyDigit c = true ∨ c = '.')
    (hfp0 : fp ≠ []) (hfp : ∀ c ∈ fp, pyDigit c = true) :
    parseBetrag (ip ++ ',' :: fp ++ (if neg then ['-'] else [])) =
      .ok (if neg
        then -((natOfDigits (ip.filter (fun c => c ≠ '.')) : ℚ) +
            (natOfDigits fp : ℚ) / 10 ^ fp.length)
        else ((natOfDigits (ip.filter (fun c => c ≠ '.')) : ℚ) +
            (natOfDigits fp : ℚ) / 10 ^ fp.length)) := by
  obtain ⟨fd, hfd⟩ : ∃ c, fp.getLast? = some c := by
    cases fp with
    | nil => exact absurd rfl hfp0
    | cons x t => exact ⟨(x :: t).getLast (by simp), List.getLast?_eq_getLast _ _⟩
  have hfd_digit : pyDigit fd = true := hfp fd (List.mem_of_mem_getLast? hfd)
  have hbody_last : (ip ++ ',' :: fp).getLast? = some fd := by
    rw [show ip ++ ',' :: fp = (ip ++ [',']) ++ fp by simp,
      getLast?_append_of_ne_nil' hfp0, hfd]
  have hfiltered_digits : ∀ c ∈ ip.filter (fun c => c ≠ '.'), pyDigit c = true := by
    intro c hc
    have hmem := List.mem_of_mem_filter hc
    have hprop := List.of_mem_filter hc
    rcases hip c hmem with h | h
    · exact h
    · exact absurd h (by simpa using hprop)
  have hfilter : ((ip ++ ',' :: fp).filter (fun c => c ≠ '.')).map
      (fun c => if c = ',' then '.' else c) = ip.filter (fun c => c ≠ '.') ++ '.' :: fp := by
    have h1 : (ip ++ ',' :: fp).filter (fun c => c ≠ '.') =
        ip.filter (fun c => c ≠ '.') ++ ',' :: fp := by
      rw [List.filter_append, List.filter_cons, if_pos (by decide),
        filter_eq_self_of_digits hfp]
    rw [h1, List.map_append, List.map_cons]
    rw [if_pos rfl, map_comma_eq_self_of_digits hfiltered_digits,
      map_comma_eq_self_of_digits hfp]
  have hdec : decimalOfChars (ip.filter (fun c => c ≠ '.') ++ '.' :: fp) =
      some (mkRat (natOfDigits (ip.filter (fun c => c ≠ '.')) * 10 ^ fp.length +
        natOfDigits fp) (10 ^ fp.length)) :=
    decimalOfChars_sep hfiltered_digits hfp hfp0
  have hval : (mkRat (natOfDigits (ip.filter (fun c => c ≠ '.')) * 10 ^ fp.length +
      natOfDigits fp) (10 ^ fp.length) : ℚ) =
      (natOfDigits (ip.filter (fun c => c ≠ '.')) : ℚ) +
        (natOfDigits fp : ℚ) / 10 ^ fp.length := by
    rw [Rat.mkRat_eq_div]
    have h10 : ((10 : ℚ) ^ fp.length) ≠ 0 := by positivity
    push_cast
    field_simp
  have hnotminus : ¬((ip ++ ',' :: fp).getLast? = some '-') := by
    rw [hbody_last]
    intro h
    exact pyDigit_ne_minus hfd_digit (Option.some.inj h)
  cases neg with
  | false =>
    rw [show (if (false : Bool) then ['-'] else ([] : List Char)) = [] from rfl,
      List.append_nil, if_neg Bool.false_ne_true]
    simp only [parseBetrag]
    rw [rstripMinus_of_last_digit hbody_last hfd_digit, hfilter, hdec]
    simp only [if_neg hnotminus]
    rw [hval]
  | true =>
    rw [show (if (true : Bool) then ['-'] else ([] : List Char)) = ['-'] from rfl,
      if_pos rfl]
    have eshape : ip ++ ',' :: fp ++ ['-'] = (ip ++ ',' :: fp) ++ ['-'] := by simp
    rw [eshape]
    simp only [parseBetrag]
    rw [rstripMinus_concat, rstripMinus_of_last_digit hbody_last hfd_digit, hfilter, hdec]
    simp only [if_pos (List.getLast?_concat (ip ++ ',' :: fp))]
    rw [hval]

/-- Claim C6: on every amount string built from a digits-and-periods
integer part, a comma, a nonempty digit fraction and an optional
trailing minus, `_parse_betrag` returns exactly the decimal value
obtained by stripping the minus, dropping the periods, reading the
comma as a decimal point and negating when the minus was present —
exact rational arithmetic, no floating point. -/
theorem claim_C6 (ip fp : List Char) (neg : Bool)
    (hip : ∀ c ∈ ip, pyDigit c = true ∨ c = '.')
    (hfp0 : fp ≠ []) (hfp : ∀ c ∈ fp, pyDigit c = true) :
    parseBetrag (ip ++ ',' :: fp ++ (if neg then ['-'] else [])) =
      .ok (if neg
        then -((natOfDigits (ip.filter (fun c => c ≠ '.')) : ℚ) +
            (natOfDigits fp : ℚ) / 10 ^ fp.length)
        else ((natOfDigits (ip.filter (fun c => c ≠ '.')) : ℚ) +
            (natOfDigits fp : ℚ) / 10 ^ fp.length)) :=
  parseBetrag_value ip fp neg hip hfp0 hfp

/-- Witness for C6 at the thousands-separated debit `1.234,56-`. -/
theorem claim_C6_witness :
    parseBetrag ("1.234,56-".toList) =
      .ok (if true
        then -((natOfDigits (("1.234".toList).filter (fun c => c ≠ '.')) : ℚ) +
            (natOfDigits ("56".toList) : ℚ) / 10 ^ ("56".toList).length)
        else ((natOfDigits (("1.234".toList).filter (fun c => c ≠ '.')) : ℚ) +
            (natOfDigits ("56".toList) : ℚ) / 10 ^ ("56".toList).length)) :=
  claim_C6 ("1.234".toList) ("56".toList) true (by decide) (by decide) (by decide)

/-! ### Claim C3 -/

lemma charOfNat_digit_toNat {d : Nat} (h : d < 10) : (Char.ofNat (48 + d)).toNat = 48 + d := by
  interval_cases d <;> decide

lemma pyDigit_charOfNat {d : Nat} (h : d < 10) : pyDigit (Char.ofNat (48 + d)) = true := by
  interval_cases d <;> decide

lemma natOfDigits_concat (a : List Char) (c : Char) :
    natOfDigits (a ++ [c]) = 10 * natOfDigits a + (c.toNat - 48) := by
  simp [natOfDigits, List.foldl_append]

lemma natOfDigits_natDigitsRev_reverse :
    ∀ fuel n : Nat, n < fuel → natOfDigits ((natDigitsRev fuel n).reverse) = n := by
  intro fuel
  induction fuel with
  | zero => intro n h; omega
  | succ f ih =>
    intro n h
    rw [natDigitsRev]
    by_cases h0 : n = 0
    · simp [h0, natOfDigits]
    · rw [if_neg h0, List.reverse_cons, natOfDigits_concat,
        ih (n / 10) (by omega), charOfNat_digit_toNat (by omega)]
      omega

lemma natOfDigits_natDigits (n : Nat) : natOfDigits (natDigits n) = n := by
  rw [natDigits]
  by_cases h : n = 0
  · simp [h, natOfDigits]
  · rw [if_neg h]
    exact natOfDigits_natDigitsRev_reverse (n + 1) n (by omega)

lemma mem_natDigitsRev :
    ∀ (fuel n : Nat) (c : Char), c ∈ natDigitsRev fuel n → pyDigit c = true := by
  intro fuel
  induction fuel with
  | zero => intro n c h; simp [natDigitsRev] at h
  | succ f ih =>
    intro n c h
    rw [natDigitsRev] at h
    by_cases h0 : n = 0
    · simp [h0] at h
    · rw [if_neg h0] at h
      rcases List.mem_cons.mp h with rfl | h'
      · exact pyDigit_charOfNat (by omega)
      · exact ih _ _ h'

lemma mem_natDigits {n : Nat} {c : Char} (h : c ∈ natDigits n) : pyDigit c = true := by
  rw [natDigits] at h
  split at h
  · simp at h
    subst h
    decide
  · exact mem_natDigitsRev _ _ _ (List.mem_reverse.mp h)

lemma pad2_digits {c : Nat} (h : c < 100) : ∀ d ∈ pad2 c, pyDigit d = true := by
  intro d hd
  rw [pad2] at hd
  simp only [List.mem_cons, List.mem_singleton, List.not_mem_nil, or_false] at hd
  rcases hd with rfl | rfl
  · exact pyDigit_charOfNat (by omega)
  · exact pyDigit_charOfNat (by omega)

lemma natOfDigits_pad2 {c : Nat} (h : c < 100) : natOfDigits (pad2 c) = c := by
  rw [pad2]
  show natOfDigits ([Char.ofNat (48 + c / 10)] ++ [Char.ofNat (48 + c % 10)]) = c
  rw [natOfDigits_concat, charOfNat_digit_toNat (by omega)]
  have h1 : natOfDigits [Char.ofNat (48 + c / 10)] = c / 10 := by
    show natOfDigits ([] ++ [Char.ofNat (48 + c / 10)]) = c / 10
    rw [natOfDigits_concat, charOfNat_digit_toNat (by omega)]
    simp [natOfDigits]
  rw [h1]
  omega

lemma filter_dot_group3Rev (l : List Char) :
    (group3Rev l).filter (fun c => c ≠ '.') = l.filter (fun c => c ≠ '.') := by
  induction l using group3Rev.induct with
  | case1 d1 d2 d3 d4 rest ih =>
    rw [group3Rev]
    simp only [List.filter_cons, ih]
    norm_num
  | case2 l h =>
    rcases l with _ | ⟨a, _ | ⟨b, _ | ⟨c', _ | ⟨d, rest⟩⟩⟩⟩
    · rfl
    · rfl
    · rfl
    · rfl
    · exact absurd rfl (h a b c' d rest)

lemma mem_group3Rev {l : List Char} {c : Char} (h : c ∈ group3Rev l) : c ∈ l ∨ c = '.' := by
  induction l using group3Rev.induct with
  | case1 d1 d2 d3 d4 rest ih =>
    rw [group3Rev] at h
    simp only [List.mem_cons] at h ⊢
    rcases h with rfl | rfl | rfl | h'
    · exact Or.inl (Or.inl rfl)
    · exact Or.inl (Or.inr (Or.inl rfl))
    · exact Or.inl (Or.inr (Or.inr (Or.inl rfl)))
    · rcases h' with rfl | h''
      · exact Or.inr rfl
      · rcases ih h'' with h3 | h3
        · simp only [List.mem_cons] at h3
          rcases h3 with rfl | h4
          · exact Or.inl (Or.inr (Or.inr (Or.inr (Or.inl rfl))))
          · exact Or.inl (Or.inr (Or.inr (Or.inr (Or.inr h4))))
        · exact Or.inr h3
  | case2 l hshape =>
    rcases l with _ | ⟨a, _ | ⟨b, _ | ⟨c', _ | ⟨d, rest⟩⟩⟩⟩
    · exact Or.inl h
    · exact Or.inl h
    · exact Or.inl h
    · exact Or.inl h
    · exact absurd rfl (hshape a b c' d rest)

lemma filter_dot_group3 (ds : List Char) :
    (group3 ds).filter (fun c => c ≠ '.') = ds.filter (fun c => c ≠ '.') := by
  rw [group3, List.filter_reverse, filter_dot_group3Rev, List.filter_reverse,
    List.reverse_reverse]

lemma mem_group3 {ds : List Char} {c : Char} (h : c ∈ group3 ds) : c ∈ ds ∨ c = '.' := by
  rw [group3, List.mem_reverse] at h
  rcases mem_group3Rev h with h' | h'
  · exact Or.inl (List.mem_reverse.mp h')
  · exact Or.inr h'

lemma roundHalfEvenDiv_mul {b : Nat} (hb : 0 < b) (c : Nat) :
    roundHalfEvenDiv (c * b) b = c := by
  rw [roundHalfEvenDiv]
  have h1 : c * b / b = c := Nat.mul_div_cancel c hb
  have h2 : c * b % b = 0 := Nat.mul_mod_left c b
  simp [h1, h2, hb]

lemma div100_num_natAbs_mul (c : Nat) :
    ((c : ℚ) / 100).num.natAbs * 100 = c * ((c : ℚ) / 100).den := by
  set q : ℚ := (c : ℚ) / 100 with hq
  have hden : (q.den : ℚ) ≠ 0 := by
    exact_mod_cast Nat.pos_iff_ne_zero.mp q.pos
  have hnum : 0 ≤ q.num := Rat.num_nonneg.mpr (by rw [hq]; positivity)
  have h2 : q * 100 = (c : ℚ) := by rw [hq]; field_simp
  have h3 : (q.num : ℚ) * 100 = (c : ℚ) * q.den := by
    have h4 := Rat.num_div_den q
    calc (q.num : ℚ) * 100 = (q.num : ℚ) / q.den * 100 * q.den := by field_simp
      _ = q * 100 * q.den := by rw [h4]
      _ = (c : ℚ) * q.den := by rw [h2]
  have h5 : q.num * 100 = (c : ℤ) * q.den := by exact_mod_cast h3
  have h6 : (q.num.natAbs : ℤ) = q.num := Int.natAbs_of_nonneg hnum
  have h7 : ((q.num.natAbs * 100 : ℕ) : ℤ) = ((c * q.den : ℕ) : ℤ) := by
    rw [Nat.cast_mul, Nat.cast_mul, h6]
    exact_mod_cast h5
  exact_mod_cast h7

lemma formatBetrag_div100 (c : Nat) :
    formatBetrag ((c : ℚ) / 100) = group3 (natDigits (c / 100)) ++ ',' :: pad2 (c % 100) := by
  have hnotneg : ¬((c : ℚ) / 100 < 0) := by
    have h0 : (0 : ℚ) ≤ (c : ℚ) / 100 := by positivity
    exact not_lt.mpr h0
  have hkey := div100_num_natAbs_mul c
  simp only [formatBetrag]
  rw [hkey, roundHalfEvenDiv_mul ((c : ℚ) / 100).pos, if_neg hnotneg]

lemma formatBetrag_neg_div100 {c : Nat} (hc : c ≠ 0) :
    formatBetrag (-((c : ℚ) / 100)) =
      minusSign :: (group3 (natDigits (c / 100)) ++ ',' :: pad2 (c % 100)) := by
  have hpos : (0 : ℚ) < (c : ℚ) / 100 := by
    have h0 : (0 : ℚ) < (c : ℚ) := by exact_mod_cast Nat.pos_of_ne_zero hc
    exact div_pos h0 (by norm_num)
  have hneg : -((c : ℚ) / 100) < 0 := by linarith
  have hnum : (-((c : ℚ) / 100)).num.natAbs = ((c : ℚ) / 100).num.natAbs := by
    rw [Rat.neg_num, Int.natAbs_neg]
  have hden : (-((c : ℚ) / 100)).den = ((c : ℚ) / 100).den := Rat.neg_den _
  simp only [formatBetrag]
  rw [hnum, hden, div100_num_natAbs_mul c, roundHalfEvenDiv_mul ((c : ℚ) / 100).pos,
    if_pos hneg]

/-- The canonical locale rendering of a whole number of cents: digits
grouped in threes by periods, a comma, exactly two fractional digits,
and a trailing ASCII minus for a debit. -/
def renderAmount (cents : Nat) (neg : Bool) : List Char :=
  group3 (natDigits (cents / 100)) ++ ',' :: pad2 (cents % 100) ++
    (if neg then ['-'] else [])

/-- Counterexample to C3 as stated: the amount string `17,6` is
accepted by the transaction grammar (it even occurs as the amount
group of a matching transaction line), parses to the exact value
88/5 = 17.6, but formats back as `17,60`, which is not the original
numeral — so the round-trip fails on grammar-accepted strings that are
not canonically rendered. -/
theorem claim_C3_counterexample :
    amountTailMatch ("17,6".toList) = true ∧
    txLineMatch ("X 01.04 17,6".toList) =
      some ("X".toList, "01.04".toList, "17,6".toList) ∧
    parseBetrag ("17,6".toList) = .ok (mkRat 88 5) ∧
    formatBetrag (mkRat 88 5) = "17,60".toList ∧
    "17,60".toList ≠ "17,6".toList := by
  refine ⟨by decide, by decide, by decide, by decide, by decide⟩

/-- Amended claim C3: for every amount in canonical locale form —
digits grouped in threes by period thousands separators, a comma, and
exactly two fractional digits, with an optional trailing ASCII minus
on a nonzero amount, and small enough that the formatter's float
conversion is exact (at most 10^15 cents) — parsing yields the exact
decimal value and formatting that value reproduces the numeral, with
the trailing ASCII minus turned into a leading U+2212 minus. -/
theorem claim_C3_amended (cents : Nat) (neg : Bool) (hbound : cents ≤ 10 ^ 15)
    (hnz : neg = true → cents ≠ 0) :
    parseBetrag (renderAmount cents neg) =
      .ok (if neg then -((cents : ℚ) / 100) else (cents : ℚ) / 100) ∧
    formatBetrag (if neg then -((cents : ℚ) / 100) else (cents : ℚ) / 100) =
      (if neg then minusSign :: renderAmount cents false else renderAmount cents false) := by
  have hmod : cents % 100 < 100 := Nat.mod_lt _ (by omega)
  have hdigits : ∀ c ∈ natDigits (cents / 100), pyDigit c = true := fun c hc => mem_natDigits hc
  have hip : ∀ c ∈ group3 (natDigits (cents / 100)), pyDigit c = true ∨ c = '.' := by
    intro c hc
    rcases mem_group3 hc with h | h
    · exact Or.inl (mem_natDigits h)
    · exact Or.inr h
  have hfp0 : pad2 (cents % 100) ≠ [] := by simp [pad2]
  have hfp : ∀ c ∈ pad2 (cents % 100), pyDigit c = true := pad2_digits hmod
  have hparse := parseBetrag_value (group3 (natDigits (cents / 100))) (pad2 (cents % 100))
    neg hip hfp0 hfp
  have hfilterval : natOfDigits ((group3 (natDigits (cents / 100))).filter
      (fun c => c ≠ '.')) = cents / 100 := by
    rw [filter_dot_group3, filter_eq_self_of_digits hdigits, natOfDigits_natDigits]
  have hlen : (pad2 (cents % 100)).length = 2 := rfl
  have hvalue : (natOfDigits ((group3 (natDigits (cents / 100))).filter
        (fun c => c ≠ '.')) : ℚ) +
      (natOfDigits (pad2 (cents % 100)) : ℚ) / 10 ^ (pad2 (cents % 100)).length =
      (cents : ℚ) / 100 := by
    rw [hfilterval, natOfDigits_pad2 hmod, hlen]
    have hnat : 100 * (cents / 100) + cents % 100 = cents := Nat.div_add_mod cents 100
    have hcast : ((100 * (cents / 100) + cents % 100 : ℕ) : ℚ) = (cents : ℚ) := by
      exact_mod_cast congrArg (fun n : ℕ => (n : ℚ)) hnat
    push_cast at hcast
    field_simp
    linarith
  constructor
  · rw [renderAmount, hparse, hvalue]
  · cases neg with
    | false =>
      rw [if_neg Bool.false_ne_true, if_neg Bool.false_ne_true, formatBetrag_div100,
        renderAmount]
      simp
    | true =>
      rw [if_pos rfl, if_pos rfl, formatBetrag_neg_div100 (hnz rfl), renderAmount]
      simp

/-- Witness for the amended C3 at the debit `1.234,56-`, which parses
to −1234.56 and formats back as `−1.234,56`. -/
theorem claim_C3_amended_witness :
    renderAmount 123456 true = "1.234,56-".toList ∧
    parseBetrag (renderAmount 123456 true) =
      .ok (if true then -((123456 : ℚ) / 100) else (123456 : ℚ) / 100) ∧
    formatBetrag (if true then -((123456 : ℚ) / 100) else (123456 : ℚ) / 100) =
      (if true then minusSign :: renderAmount 123456 false else renderAmount 123456 false) :=
  ⟨by decide,
   (claim_C3_amended 123456 true (by norm_num) (fun _ => by norm_num)).1,
   (claim_C3_amended 123456 true (by norm_num) (fun _ => by norm_num)).2⟩

/-! ### Claim C2 -/

lemma scanLines_eq_trace (year : Option Nat) :
    ∀ (ls : List (List Char)) (i : Nat) (mode : Option PyDate) (acc : List Transaction),
      scanLines year ls mode acc =
        (scanTraceAux year ls i mode).map (fun es => acc ++ emitsOf es) := by
  intro ls
  induction ls with
  | nil => intro i mode acc; simp [scanLines, scanTraceAux, emitsOf, Except.map]
  | cons line rest ih =>
    intro i mode acc
    match mode with
    | none =>
      cases hm : searchBooking (strip line) with
      | none =>
        simp only [scanLines, scanTraceAux, hm]
        exact ih (i + 1) none acc
      | some dstr =>
        cases hd : strptimeDMY dstr with
        | ok bd =>
          simp only [scanLines, scanTraceAux, hm, hd]
          rw [ih (i + 1) (some bd) acc]
          cases haux : scanTraceAux year rest (i + 1) (some bd) with
          | ok es => simp [Except.map, emitsOf]
          | error e => simp [Except.map]
        | error e =>
          simp only [scanLines, scanTraceAux, hm, hd]
          rfl
    | some bd =>
      cases ht : tryParseTransaction line rest year bd with
      | error e =>
        simp only [scanLines, scanTraceAux, ht]
        rfl
      | ok otx =>
        cases otx with
        | some tx =>
          simp only [scanLines, scanTraceAux, ht]
          rw [ih (i + 1) (some bd) (acc ++ [tx])]
          cases haux : scanTraceAux year rest (i + 1) (some bd) with
          | ok es => simp [Except.map, emitsOf]
          | error e => simp [Except.map]
        | none =>
          cases hraw : searchBooking line with
          | none =>
            simp only [scanLines, scanTraceAux, ht, hraw]
            rw [ih (i + 1) (some bd) acc]
            cases haux : scanTraceAux year rest (i + 1) (some bd) with
            | ok es => simp [Except.map, emitsOf]
            | error e => simp [Except.map]
          | some g =>
            cases hm : searchBooking (strip line) with
            | none =>
              simp only [scanLines, scanTraceAux, ht, hraw, hm]
              rw [ih (i + 1) none acc]
              cases haux : scanTraceAux year rest (i + 1) none with
              | ok es => simp [Except.map, emitsOf]
              | error e => simp [Except.map]
            | some dstr =>
              cases hd : strptimeDMY dstr with
              | ok bd2 =>
                simp only [scanLines, scanTraceAux, ht, hraw, hm, hd]
                rw [ih (i + 1) (some bd2) acc]
                cases haux : scanTraceAux year rest (i + 1) (some bd2) with
                | ok es => simp [Except.map, emitsOf]
                | error e => simp [Except.map]
              | error e =>
                simp only [scanLines, scanTraceAux, ht, hraw, hm, hd]
                rfl

lemma govOk_none_mono : ∀ (es : List Ev) (m : Option PyDate),
    govOk none es = true → govOk m es = true := by
  intro es
  induction es with
  | nil => intro m _; rfl
  | cons e rest ih =>
    intro m h
    cases e with
    | visit i =>
      rw [govOk] at h ⊢
      exact ih m h
    | marker i d =>
      rw [govOk] at h ⊢
      exact h
    | emit i sp tx =>
      rw [govOk] at h
      simp at h

lemma scanTraceAux_govOk (year : Option Nat) :
    ∀ (ls : List (List Char)) (i : Nat) (mode : Option PyDate) (es : List Ev),
      scanTraceAux year ls i mode = .ok es → govOk mode es = true := by
  intro ls
  induction ls with
  | nil =>
    intro i mode es h
    simp only [scanTraceAux] at h
    cases h
    rfl
  | cons line rest ih =>
    intro i mode es h
    match mode with
    | none =>
      cases hm : searchBooking (strip line) with
      | none =>
        simp only [scanTraceAux, hm] at h
        exact ih (i + 1) none es h
      | some dstr =>
        cases hd : strptimeDMY dstr with
        | ok bd =>
          simp only [scanTraceAux, hm, hd] at h
          cases haux : scanTraceAux year rest (i + 1) (some bd) with
          | ok es' =>
            rw [haux] at h
            cases h
            rw [govOk]
            exact ih (i + 1) (some bd) es' haux
          | error e => rw [haux] at h; cases h
        | error e =>
          simp only [scanTraceAux, hm, hd] at h
          cases h
    | some bd =>
      cases ht : tryParseTransaction line rest year bd with
      | error e =>
        simp only [scanTraceAux, ht] at h
        cases h
      | ok otx =>
        cases otx with
        | some tx =>
          simp only [scanTraceAux, ht] at h
          cases haux : scanTraceAux year rest (i + 1) (some bd) with
          | ok es' =>
            rw [haux] at h
            cases h
            rw [govOk, govOk]
            rw [tryParse_some_buchungsdatum ht]
            simpa using ih (i + 1) (some bd) es' haux
          | error e => rw [haux] at h; cases h
        | none =>
          cases hraw : searchBooking line with
          | none =>
            simp only [scanTraceAux, ht, hraw] at h
            cases haux : scanTraceAux year rest (i + 1) (some bd) with
            | ok es' =>
              rw [haux] at h
              cases h
              rw [govOk]
              exact ih (i + 1) (some bd) es' haux
            | error e => rw [haux] at h; cases h
          | some g =>
            cases hm : searchBooking (strip line) with
            | none =>
              simp only [scanTraceAux, ht, hraw, hm] at h
              cases haux : scanTraceAux year rest (i + 1) none with
              | ok es' =>
                rw [haux] at h
                cases h
                rw [govOk]
                exact govOk_none_mono es' _ (ih (i + 1) none es' haux)
              | error e => rw [haux] at h; cases h
            | some dstr =>
              cases hd : strptimeDMY dstr with
              | ok bd2 =>
                simp only [scanTraceAux, ht, hraw, hm, hd] at h
                cases haux : scanTraceAux year rest (i + 1) (some bd2) with
                | ok es' =>
                  rw [haux] at h
                  cases h
                  rw [govOk, govOk]
                  exact ih (i + 1) (some bd2) es' haux
                | error e => rw [haux] at h; cases h
              | error e =>
                simp only [scanTraceAux, ht, hraw, hm, hd] at h
                cases h

/-- Claim C2: in every successful parse, each emitted record carries
exactly the booking date announced by the marker event most recently
recognised by the scanner before it, and no record is emitted before
the first recognised booking-date marker. -/
theorem claim_C2 (text : List Char) (l : List Transaction) (h : parse text = .ok l) :
    ∃ es, scanTrace text = .ok es ∧ l = emitsOf es ∧ govOk none es = true := by
  unfold parse at h
  cases hx : extractYear text with
  | error e =>
    rw [hx] at h
    exact absurd h (by simp)
  | ok y =>
    rw [hx] at h
    have h' : scanLines (some y) (splitNl text) none [] = .ok l := h
    rw [scanLines_eq_trace (some y) (splitNl text) 0 none []] at h'
    cases haux : scanTraceAux (some y) (splitNl text) 0 none with
    | error e =>
      rw [haux] at h'
      exact absurd h' (by simp [Except.map])
    | ok es =>
      rw [haux] at h'
      simp only [Except.map, List.nil_append] at h'
      refine ⟨es, ?_, ?_, scanTraceAux_govOk (some y) (splitNl text) 0 none es haux⟩
      · unfold scanTrace
        rw [hx]
        exact haux
      · exact (Except.ok.inj h').symm

/-- The text of the C2 witness: one booking block with one
transaction. -/
def c2Text : List Char :=
  "Kontoauszug vom 30.04.2021\nBuchungsdatum: 01.04.2021\nSHOP 01.04 5,00-".toList

/-- The record parsed from `c2Text`. -/
def c2Tx : Transaction :=
  { buchungsdatum := ⟨2021, 4, 1⟩, valuta := ⟨2021, 4, 1⟩,
    beschreibung := "SHOP".toList, betrag := -5,
    waehrung := "EUR".toList, gegenkonto_iban := none, gegenkonto_bic := none,
    verwendungszweck := some ("SHOP".toList) }

/-- Witness for C2 at `c2Text`. -/
theorem claim_C2_witness :
    ∃ es, scanTrace c2Text = .ok es ∧ [c2Tx] = emitsOf es ∧ govOk none es = true :=
  claim_C2 c2Text [c2Tx] (by decide)

/-! ### Claim C8 -/

/-- The text of the C8 counterexample: a transaction line whose memo
absorbs the following line, which the scanner then examines again. -/
def c8Text : List Char :=
  "Kontoauszug vom 30.04.2021\nBuchungsdatum: 01.04.2021\nSHOP 01.04 5,00-\nMEMOLINE".toList

/-- Counterexample to C8 as stated: the successful parse of `c8Text`
joins line 3 (`MEMOLINE`) into the record's continuation span, yet the
scanner advances only one line after emitting and examines line 3
again — the no-reexamination check on the event trace fails. -/
theorem claim_C8_counterexample :
    (scanTrace c8Text).map (noReexamine []) = .ok false ∧
    (parse c8Text).map (List.map fun t => t.verwendungszweck) =
      .ok [some ("SHOP MEMOLINE".toList)] := by
  refine ⟨by decide, by decide⟩

lemma chainGE_mono {es : List Ev} {i j : Nat} (hij : i ≤ j) (h : chainGE j es = true) :
    chainGE i es = true := by
  cases es with
  | nil => rfl
  | cons e rest =>
    rw [chainGE] at h ⊢
    simp only [Bool.and_eq_true, decide_eq_true_eq] at h ⊢
    exact ⟨le_trans hij h.1, h.2⟩

lemma visitsLB_mono : ∀ {es : List Ev} {i j : Nat}, i ≤ j → visitsLB j es = true →
    visitsLB i es = true := by
  intro es
  induction es with
  | nil => intro i j _ _; rfl
  | cons e rest ih =>
    intro i j hij h
    cases e with
    | visit k =>
      rw [visitsLB] at h ⊢
      simp only [Bool.and_eq_true, decide_eq_true_eq] at h ⊢
      exact ⟨le_trans hij h.1, h.2⟩
    | marker k d =>
      rw [visitsLB] at h ⊢
      exact ih hij h
    | emit k sp tx =>
      rw [visitsLB] at h ⊢
      exact ih hij h

lemma scanTraceAux_chainGE (year : Option Nat) :
    ∀ (ls : List (List Char)) (i : Nat) (mode : Option PyDate) (es : List Ev),
      scanTraceAux year ls i mode = .ok es → chainGE i es = true := by
  intro ls
  induction ls with
  | nil =>
    intro i mode es h
    simp only [scanTraceAux] at h
    cases h
    rfl
  | cons line rest ih =>
    intro i mode es h
    match mode with
    | none =>
      cases hm : searchBooking (strip line) with
      | none =>
        simp only [scanTraceAux, hm] at h
        exact chainGE_mono (Nat.le_succ i) (ih (i + 1) none es h)
      | some dstr =>
        cases hd : strptimeDMY dstr with
        | ok bd =>
          simp only [scanTraceAux, hm, hd] at h
          cases haux : scanTraceAux year rest (i + 1) (some bd) with
          | ok es' =>
            rw [haux] at h
            cases h
            rw [chainGE]
            simp only [evIdx, Bool.and_eq_true, decide_eq_true_eq]
            exact ⟨le_refl i, chainGE_mono (Nat.le_succ i) (ih (i + 1) (some bd) es' haux)⟩
          | error e => rw [haux] at h; cases h
        | error e => simp only [scanTraceAux, hm, hd] at h; cases h
    | some bd =>
      cases ht : tryParseTransaction line rest year bd with
      | error e => simp only [scanTraceAux, ht] at h; cases h
      | ok otx =>
        cases otx with
        | some tx =>
          simp only [scanTraceAux, ht] at h
          cases haux : scanTraceAux year rest (i + 1) (some bd) with
          | ok es' =>
            rw [haux] at h
            cases h
            rw [chainGE, chainGE]
            simp only [evIdx, Bool.and_eq_true, decide_eq_true_eq]
            exact ⟨le_refl i, le_refl i,
              chainGE_mono (Nat.le_succ i) (ih (i + 1) (some bd) es' haux)⟩
          | error e => rw [haux] at h; cases h
        | none =>
          cases hraw : searchBooking line with
          | none =>
            simp only [scanTraceAux, ht, hraw] at h
            cases haux : scanTraceAux year rest (i + 1) (some bd) with
            | ok es' =>
              rw [haux] at h
              cases h
              rw [chainGE]
              simp only [evIdx, Bool.and_eq_true, decide_eq_true_eq]
              exact ⟨le_refl i, chainGE_mono (Nat.le_succ i) (ih (i + 1) (some bd) es' haux)⟩
            | error e => rw [haux] at h; cases h
          | some g =>
            cases hm : searchBooking (strip line) with
            | none =>
              simp only [scanTraceAux, ht, hraw, hm] at h
              cases haux : scanTraceAux year rest (i + 1) none with
              | ok es' =>
                rw [haux] at h
                cases h
                rw [chainGE]
                simp only [evIdx, Bool.and_eq_true, decide_eq_true_eq]
                exact ⟨le_refl i, chainGE_mono (Nat.le_succ i) (ih (i + 1) none es' haux)⟩
              | error e => rw [haux] at h; cases h
            | some dstr =>
              cases hd : strptimeDMY dstr with
              | ok bd2 =>
                simp only [scanTraceAux, ht, hraw, hm, hd] at h
                cases haux : scanTraceAux year rest (i + 1) (some bd2) with
                | ok es' =>
                  rw [haux] at h
                  cases h
                  rw [chainGE, chainGE]
                  simp only [evIdx, Bool.and_eq_true, decide_eq_true_eq]
                  exact ⟨le_refl i, le_refl i,
                    chainGE_mono (Nat.le_succ i) (ih (i + 1) (some bd2) es' haux)⟩
                | error e => rw [haux] at h; cases h
              | error e => simp only [scanTraceAux, ht, hraw, hm, hd] at h; cases h

lemma scanTraceAux_visitsLB (year : Option Nat) :
    ∀ (ls : List (List Char)) (i : Nat) (mode : Option PyDate) (es : List Ev),
      scanTraceAux year ls i mode = .ok es → visitsLB i es = true := by
  intro ls
  induction ls with
  | nil =>
    intro i mode es h
    simp only [scanTraceAux] at h
    cases h
    rfl
  | cons line rest ih =>
    intro i mode es h
    match mode with
    | none =>
      cases hm : searchBooking (strip line) with
      | none =>
        simp only [scanTraceAux, hm] at h
        exact visitsLB_mono (Nat.le_succ i) (ih (i + 1) none es h)
      | some dstr =>
        cases hd : strptimeDMY dstr with
        | ok bd =>
          simp only [scanTraceAux, hm, hd] at h
          cases haux : scanTraceAux year rest (i + 1) (some bd) with
          | ok es' =>
            rw [haux] at h
            cases h
            rw [visitsLB]
            exact visitsLB_mono (Nat.le_succ i) (ih (i + 1) (some bd) es' haux)
          | error e => rw [haux] at h; cases h
        | error e => simp only [scanTraceAux, hm, hd] at h; cases h
    | some bd =>
      cases ht : tryParseTransaction line rest year bd with
      | error e => simp only [scanTraceAux, ht] at h; cases h
      | ok otx =>
        cases otx with
        | some tx =>
          simp only [scanTraceAux, ht] at h
          cases haux : scanTraceAux year rest (i + 1) (some bd) with
          | ok es' =>
            rw [haux] at h
            cases h
            rw [visitsLB, visitsLB]
            simp only [Bool.and_eq_true, decide_eq_true_eq]
            exact ⟨le_refl i, ih (i + 1) (some bd) es' haux⟩
          | error e => rw [haux] at h; cases h
        | none =>
          cases hraw : searchBooking line with
          | none =>
            simp only [scanTraceAux, ht, hraw] at h
            cases haux : scanTraceAux year rest (i + 1) (some bd) with
            | ok es' =>
              rw [haux] at h
              cases h
              rw [visitsLB]
              simp only [Bool.and_eq_true, decide_eq_true_eq]
              exact ⟨le_refl i, ih (i + 1) (some bd) es' haux⟩
            | error e => rw [haux] at h; cases h
          | some g =>
            cases hm : searchBooking (strip line) with
            | none =>
              simp only [scanTraceAux, ht, hraw, hm] at h
              cases haux : scanTraceAux year rest (i + 1) none with
              | ok es' =>
                rw [haux] at h
                cases h
                rw [visitsLB]
                simp only [Bool.and_eq_true, decide_eq_true_eq]
                exact ⟨le_refl i, ih (i + 1) none es' haux⟩
              | error e => rw [haux] at h; cases h
            | some dstr =>
              cases hd : strptimeDMY dstr with
              | ok bd2 =>
                simp only [scanTraceAux, ht, hraw, hm, hd] at h
                cases haux : scanTraceAux year rest (i + 1) (some bd2) with
                | ok es' =>
                  rw [haux] at h
                  cases h
                  rw [visitsLB, visitsLB]
                  simp only [Bool.and_eq_true, decide_eq_true_eq]
                  exact ⟨le_refl i, ih (i + 1) (some bd2) es' haux⟩
                | error e => rw [haux] at h; cases h
              | error e => simp only [scanTraceAux, ht, hraw, hm, hd] at h; cases h

lemma scanTraceAux_advOne (year : Option Nat) :
    ∀ (ls : List (List Char)) (i : Nat) (mode : Option PyDate) (es : List Ev),
      scanTraceAux year ls i mode = .ok es →
      advOne es = true ∧
      (mode.isSome → ls ≠ [] → ∃ tail, es = Ev.visit i :: tail) ∧
      (ls = [] → es = []) := by
  intro ls
  induction ls with
  | nil =>
    intro i mode es h
    simp only [scanTraceAux] at h
    cases h
    exact ⟨rfl, fun _ hne => absurd rfl hne, fun _ => rfl⟩
  | cons line rest ih =>
    intro i mode es h
    match mode with
    | none =>
      cases hm : searchBooking (strip line) with
      | none =>
        simp only [scanTraceAux, hm] at h
        refine ⟨(ih (i + 1) none es h).1, by simp, by simp⟩
      | some dstr =>
        cases hd : strptimeDMY dstr with
        | ok bd =>
          simp only [scanTraceAux, hm, hd] at h
          cases haux : scanTraceAux year rest (i + 1) (some bd) with
          | ok es' =>
            rw [haux] at h
            cases h
            refine ⟨?_, by simp, by simp⟩
            rw [advOne]
            exact (ih (i + 1) (some bd) es' haux).1
          | error e => rw [haux] at h; cases h
        | error e => simp only [scanTraceAux, hm, hd] at h; cases h
    | some bd =>
      cases ht : tryParseTransaction line rest year bd with
      | error e => simp only [scanTraceAux, ht] at h; cases h
      | ok otx =>
        cases otx with
        | some tx =>
          simp only [scanTraceAux, ht] at h
          cases haux : scanTraceAux year rest (i + 1) (some bd) with
          | ok es' =>
            rw [haux] at h
            cases h
            obtain ⟨hadv, hhead, hnil⟩ := ih (i + 1) (some bd) es' haux
            refine ⟨?_, fun _ _ => ⟨_, rfl⟩, by simp⟩
            cases rest with
            | nil =>
              rw [hnil rfl]
              rfl
            | cons r rs =>
              obtain ⟨tail, htail⟩ := hhead rfl (by simp)
              rw [htail, advOne, advOne, afterEmit]
              simp only [Bool.and_eq_true, decide_eq_true_eq]
              refine ⟨trivial, ?_⟩
              rw [htail] at hadv
              exact hadv
          | error e => rw [haux] at h; cases h
        | none =>
          cases hraw : searchBooking line with
          | none =>
            simp only [scanTraceAux, ht, hraw] at h
            cases haux : scanTraceAux year rest (i + 1) (some bd) with
            | ok es' =>
              rw [haux] at h
              cases h
              refine ⟨?_, fun _ _ => ⟨_, rfl⟩, by simp⟩
              rw [advOne]
              exact (ih (i + 1) (some bd) es' haux).1
            | error e => rw [haux] at h; cases h
          | some g =>
            cases hm : searchBooking (strip line) with
            | none =>
              simp only [scanTraceAux, ht, hraw, hm] at h
              cases haux : scanTraceAux year rest (i + 1) none with
              | ok es' =>
                rw [haux] at h
                cases h
                refine ⟨?_, fun _ _ => ⟨_, rfl⟩, by simp⟩
                rw [advOne]
                exact (ih (i + 1) none es' haux).1
              | error e => rw [haux] at h; cases h
            | some dstr =>
              cases hd : strptimeDMY dstr with
              | ok bd2 =>
                simp only [scanTraceAux, ht, hraw, hm, hd] at h
                cases haux : scanTraceAux year rest (i + 1) (some bd2) with
                | ok es' =>
                  rw [haux] at h
                  cases h
                  refine ⟨?_, fun _ _ => ⟨_, rfl⟩, by simp⟩
                  rw [advOne, advOne]
                  exact (ih (i + 1) (some bd2) es' haux).1
                | error e => rw [haux] at h; cases h
              | error e => simp only [scanTraceAux, ht, hraw, hm, hd] at h; cases h

/-- Amended claim C8: throughout every run of `parse` the scanner
never moves its cursor backwards (event indices never drop below the
running bound) and never hands the same line to the transaction parser
twice (examined indices strictly increase); but after emitting a
record it advances exactly one line past the transaction line — the
next examined line is the line immediately after it, so lines already
absorbed into the record's continuation span are re-examined (each at
most once). -/
theorem claim_C8_amended (text : List Char) (es : List Ev) (h : scanTrace text = .ok es) :
    chainGE 0 es = true ∧ visitsLB 0 es = true ∧ advOne es = true := by
  unfold scanTrace at h
  cases hx : extractYear text with
  | error e =>
    rw [hx] at h
    exact absurd h (by simp)
  | ok y =>
    rw [hx] at h
    have h' : scanTraceAux (some y) (splitNl text) 0 none = .ok es := h
    exact ⟨scanTraceAux_chainGE (some y) (splitNl text) 0 none es h',
      scanTraceAux_visitsLB (some y) (splitNl text) 0 none es h',
      (scanTraceAux_advOne (some y) (splitNl text) 0 none es h').1⟩

/-- Witness for the amended C8 at the trace of `c8Text`, whose scanner
re-examines a consumed continuation line but never moves backwards. -/
theorem claim_C8_amended_witness :
    ∃ es, scanTrace c8Text = .ok es ∧
      (chainGE 0 es = true ∧ visitsLB 0 es = true ∧ advOne es = true) := by
  have htr : (scanTrace c8Text).isOk = true := by decide
  cases haux : scanTrace c8Text with
  | error e =>
    rw [haux] at htr
    exact absurd htr (by simp [Except.isOk, Except.toBool])
  | ok es => exact ⟨es, rfl, claim_C8_amended c8Text es haux⟩

end CommerzbankPdfToCsv
